import Mathlib

/-!
Verification of the weather-cli forecast aggregator and report formatters,
shallowly embedded from `src/weather.py`.

The aggregation loop of `fetch_forecast` (lines 99-128) works on a Python
dict that preserves insertion order; it is embedded here as an association
list to which new day keys are appended at the end.  Timestamps are embedded
as a calendar record (`DateTime`); the day key `dt.strftime("%Y-%m-%d")`
becomes the triple `(year, month, day)` (for valid zero-padded dates the
formatted strings are equal exactly when the triples are).  Temperatures are
embedded as rationals: every operation the code performs on them
(`min`, `max`, comparison) is exact on floats, so the rational model agrees
with the float semantics on these operations.
-/

/-- A timestamp, as produced by `datetime.fromtimestamp` (local calendar time). -/
structure DateTime where
  year : Nat
  month : Nat
  day : Nat
  hour : Nat
  minute : Nat
deriving DecidableEq, Repr

/-- The grouping key of `fetch_forecast`: `dt.strftime("%Y-%m-%d")`,
embedded as the (year, month, day) triple. -/
def DateTime.dayKey (dt : DateTime) : Nat × Nat × Nat :=
  (dt.year, dt.month, dt.day)

/-- A linear encoding of the full timestamp; for valid timestamps the
chronological order is the order of these codes. -/
def DateTime.code (dt : DateTime) : Nat :=
  (((dt.year * 13 + dt.month) * 32 + dt.day) * 24 + dt.hour) * 60 + dt.minute

/-- A linear encoding of the calendar date alone. -/
def DateTime.dayCode (dt : DateTime) : Nat :=
  (dt.year * 13 + dt.month) * 32 + dt.day

/-- Field ranges under which the encodings above are order-faithful
(any real calendar timestamp satisfies them). -/
def DateTime.Valid (dt : DateTime) : Prop :=
  dt.month < 13 ∧ dt.day < 32 ∧ dt.hour < 24 ∧ dt.minute < 60

instance (dt : DateTime) : Decidable dt.Valid := by
  unfold DateTime.Valid; infer_instance

/-- One entry of the provider's forecast list, after the fetch layer has
extracted `datetime.fromtimestamp(item["dt"])`, `item["main"]["temp"]` and
`item["weather"][0]["description"]` (spec: `RawForecastSample`). -/
structure RawSample where
  dt : DateTime
  temp : ℚ
  description : String
deriving DecidableEq, Repr

/-- The `Forecast` dataclass of `src/weather.py` (spec: `DailyForecast`). -/
structure Forecast where
  date : DateTime
  temp_min : ℚ
  temp_max : ℚ
  description : String
deriving DecidableEq, Repr

/-- The per-day accumulator dict value built by the grouping loop
(lines 105-113): `{"date": dt, "temps": [...], "descriptions": [...]}`. -/
structure DayData where
  date : DateTime
  temps : List ℚ
  descriptions : List String
deriving DecidableEq, Repr

abbrev DayKey := Nat × Nat × Nat

/-- Lines 112-113: append the sample's temperature and description to an
existing day entry. -/
def addSample (d : DayData) (s : RawSample) : DayData :=
  { d with
    temps := d.temps ++ [s.temp],
    descriptions := d.descriptions ++ [s.description] }

/-- One iteration of the grouping loop (lines 101-113) on the insertion
ordered dict `daily`: a new key is appended at the end, an existing key's
entry is updated in place. -/
def insertSample (daily : List (DayKey × DayData)) (s : RawSample) :
    List (DayKey × DayData) :=
  if s.dt.dayKey ∈ daily.map Prod.fst then
    daily.map (fun p => if p.1 = s.dt.dayKey then (p.1, addSample p.2 s) else p)
  else
    daily ++ [(s.dt.dayKey, ⟨s.dt, [s.temp], [s.description]⟩)]

/-- The full grouping loop: `daily` after scanning the whole sample list. -/
def buildDaily (l : List RawSample) : List (DayKey × DayData) :=
  l.foldl insertSample []

/-- Python `min` over a non-empty list (the `[]` case never arises: every
day entry holds at least one temperature). -/
def listMin : List ℚ → ℚ
  | [] => 0
  | x :: xs => xs.foldl min x

/-- Python `max` over a non-empty list. -/
def listMax : List ℚ → ℚ
  | [] => 0
  | x :: xs => xs.foldl max x

/-- First-occurrence deduplication.  It models Python's `set(descs)` as an
iteration over the distinct values: CPython's set order is arbitrary
(hash-based); first-occurrence order is one concrete deterministic choice,
and no theorem below depends on which maximal-count value a different set
order would select. -/
def dedupFirst {α : Type _} [DecidableEq α] (l : List α) : List α :=
  l.foldl (fun acc x => if x ∈ acc then acc else acc ++ [x]) []

/-- Line 118: `max(set(descs), key=descs.count)`.  Python `max` keeps the
first element of the iteration whose key is not strictly exceeded later. -/
def mostCommon (descs : List String) : String :=
  match dedupFirst descs with
  | [] => ""
  | x :: xs => xs.foldl (fun best y => if descs.count best < descs.count y then y else best) x

/-- Lines 119-126: one `Forecast` from one day entry. -/
def toForecast (d : DayData) : Forecast :=
  ⟨d.date, listMin d.temps, listMax d.temps, mostCommon d.descriptions⟩

/-- The aggregation performed by `fetch_forecast` (lines 99-128): group the
samples by calendar day, reduce each group, return the first 5 groups. -/
def aggregate (l : List RawSample) : List Forecast :=
  (((buildDaily l).map Prod.snd).map toForecast).take 5

/-! ### Spec-level characterization of the grouping loop -/

/-- All samples of `l` whose calendar date is `k` (spec: a day group). -/
def groupSamples (l : List RawSample) (k : DayKey) : List RawSample :=
  l.filter (fun s => s.dt.dayKey = k)

/-- The timestamp of the first sample of `l` with calendar date `k`. -/
def firstDate (l : List RawSample) (k : DayKey) : DateTime :=
  match l.find? (fun s => s.dt.dayKey = k) with
  | some s => s.dt
  | none => ⟨0, 0, 0, 0, 0⟩

/-- The day entry that the grouping loop should produce for key `k`. -/
def groupData (l : List RawSample) (k : DayKey) : DayData :=
  ⟨firstDate l k, (groupSamples l k).map (fun s => s.temp),
    (groupSamples l k).map (fun s => s.description)⟩

/-! ### Properties of `dedupFirst` -/

theorem foldl_insertNew_mem {α : Type _} [DecidableEq α] (l : List α) (acc : List α) (x : α) :
    (x ∈ l.foldl (fun acc y => if y ∈ acc then acc else acc ++ [y]) acc) ↔
      x ∈ acc ∨ x ∈ l := by
  induction l generalizing acc with
  | nil => simp
  | cons y ys ih =>
    simp only [List.foldl_cons, ih]
    rcases Decidable.em (y ∈ acc) with h | h
    · rw [if_pos h]
      simp only [List.mem_cons]
      constructor
      · rintro (hx | hx)
        · exact Or.inl hx
        · exact Or.inr (Or.inr hx)
      · rintro (hx | rfl | hx)
        · exact Or.inl hx
        · exact Or.inl h
        · exact Or.inr hx
    · rw [if_neg h]
      simp [List.mem_append, List.mem_cons, or_assoc]

theorem mem_dedupFirst {α : Type _} [DecidableEq α] (l : List α) (x : α) :
    x ∈ dedupFirst l ↔ x ∈ l := by
  unfold dedupFirst
  rw [foldl_insertNew_mem]
  simp

theorem foldl_insertNew_nodup {α : Type _} [DecidableEq α] (l : List α) (acc : List α)
    (h : acc.Nodup) :
    (l.foldl (fun acc y => if y ∈ acc then acc else acc ++ [y]) acc).Nodup := by
  induction l generalizing acc with
  | nil => simpa
  | cons y ys ih =>
    simp only [List.foldl_cons]
    rcases Decidable.em (y ∈ acc) with hy | hy
    · rw [if_pos hy]
      exact ih acc h
    · rw [if_neg hy]
      refine ih _ ?_
      rw [List.nodup_append]
      refine ⟨h, List.nodup_singleton y, ?_⟩
      intro a ha hmem
      rcases List.mem_singleton.mp hmem with rfl
      exact hy ha

theorem nodup_dedupFirst {α : Type _} [DecidableEq α] (l : List α) :
    (dedupFirst l).Nodup :=
  foldl_insertNew_nodup l [] List.nodup_nil

theorem foldl_insertNew_sublist {α : Type _} [DecidableEq α] (l : List α) (acc : List α) :
    (l.foldl (fun acc y => if y ∈ acc then acc else acc ++ [y]) acc).Sublist (acc ++ l) := by
  induction l generalizing acc with
  | nil => simp
  | cons y ys ih =>
    simp only [List.foldl_cons]
    rcases Decidable.em (y ∈ acc) with hy | hy
    · rw [if_pos hy]
      exact (ih acc).trans
        ((List.append_sublist_append_left acc).mpr (List.sublist_cons_self y ys))
    · rw [if_neg hy]
      have h := ih (acc ++ [y])
      rwa [List.append_assoc, List.singleton_append] at h

theorem dedupFirst_sublist {α : Type _} [DecidableEq α] (l : List α) :
    (dedupFirst l).Sublist l := by
  simpa using foldl_insertNew_sublist l []

theorem dedupFirst_concat {α : Type _} [DecidableEq α] (l : List α) (x : α) :
    dedupFirst (l ++ [x]) =
      if x ∈ dedupFirst l then dedupFirst l else dedupFirst l ++ [x] := by
  unfold dedupFirst
  rw [List.foldl_append]
  rfl

theorem dedupFirst_of_nodup {α : Type _} [DecidableEq α] (l : List α) (h : l.Nodup) :
    dedupFirst l = l := by
  induction l using List.reverseRecOn with
  | nil => rfl
  | append_singleton l x ih =>
    rw [List.nodup_append] at h
    rw [dedupFirst_concat, if_neg, ih h.1]
    rw [mem_dedupFirst]
    intro hx
    exact h.2.2 hx (List.mem_singleton_self x)

/-! ### The grouping loop builds exactly the first-occurrence groups -/

theorem mem_keys_iff_find? (l : List RawSample) (k : DayKey) :
    k ∈ l.map (fun s => s.dt.dayKey) ↔
      (l.find? (fun s => s.dt.dayKey = k)).isSome := by
  rw [List.find?_isSome]
  simp only [List.mem_map, decide_eq_true_eq]

theorem find?_eq_none_of_not_mem {l : List RawSample} {k : DayKey}
    (h : k ∉ l.map (fun s => s.dt.dayKey)) :
    l.find? (fun s => s.dt.dayKey = k) = none := by
  rcases hf : l.find? (fun s => s.dt.dayKey = k) with _ | s
  · exact hf
  · exact absurd ((mem_keys_iff_find? l k).mpr (by rw [hf]; rfl)) h

theorem firstDate_dayKey {l : List RawSample} {k : DayKey}
    (h : k ∈ l.map (fun s => s.dt.dayKey)) : (firstDate l k).dayKey = k := by
  rw [mem_keys_iff_find?] at h
  rcases Option.isSome_iff_exists.mp h with ⟨s, hs⟩
  have hp := List.find?_some hs
  simp only [decide_eq_true_eq] at hp
  simp [firstDate, hs, hp]

theorem groupSamples_append (l : List RawSample) (s : RawSample) (k : DayKey) :
    groupSamples (l ++ [s]) k =
      groupSamples l k ++ if s.dt.dayKey = k then [s] else [] := by
  unfold groupSamples
  rw [List.filter_append]
  congr 1
  rcases Decidable.em (s.dt.dayKey = k) with h | h
  · simp [h]
  · simp [h]

theorem groupSamples_eq_nil {l : List RawSample} {k : DayKey}
    (h : k ∉ l.map (fun s => s.dt.dayKey)) : groupSamples l k = [] := by
  unfold groupSamples
  rw [List.filter_eq_nil_iff]
  intro t ht
  simp only [decide_eq_true_eq]
  intro hk
  exact h (List.mem_map.mpr ⟨t, ht, hk⟩)

theorem firstDate_append_of_mem {l : List RawSample} (s : RawSample) {k : DayKey}
    (h : k ∈ l.map (fun t => t.dt.dayKey)) :
    firstDate (l ++ [s]) k = firstDate l k := by
  rw [mem_keys_iff_find?] at h
  rcases Option.isSome_iff_exists.mp h with ⟨t, ht⟩
  unfold firstDate
  rw [List.find?_append, ht]
  rfl

theorem firstDate_append_new {l : List RawSample} {s : RawSample}
    (h : s.dt.dayKey ∉ l.map (fun t => t.dt.dayKey)) :
    firstDate (l ++ [s]) s.dt.dayKey = s.dt := by
  unfold firstDate
  rw [List.find?_append, find?_eq_none_of_not_mem h]
  simp [List.find?]

theorem groupData_append_of_ne {l : List RawSample} {s : RawSample} {k : DayKey}
    (hk : k ∈ l.map (fun t => t.dt.dayKey)) (hne : s.dt.dayKey ≠ k) :
    groupData (l ++ [s]) k = groupData l k := by
  unfold groupData
  rw [groupSamples_append, if_neg hne, List.append_nil, firstDate_append_of_mem s hk]

theorem groupData_append_same {l : List RawSample} {s : RawSample}
    (hk : s.dt.dayKey ∈ l.map (fun t => t.dt.dayKey)) :
    groupData (l ++ [s]) s.dt.dayKey = addSample (groupData l s.dt.dayKey) s := by
  unfold groupData addSample
  rw [groupSamples_append, if_pos rfl, firstDate_append_of_mem s hk]
  simp

theorem buildDaily_append (l : List RawSample) (s : RawSample) :
    buildDaily (l ++ [s]) = insertSample (buildDaily l) s := by
  unfold buildDaily
  rw [List.foldl_append]
  rfl

theorem buildDaily_eq (l : List RawSample) :
    buildDaily l = (dedupFirst (l.map (fun s => s.dt.dayKey))).map
      (fun k => (k, groupData l k)) := by
  induction l using List.reverseRecOn with
  | nil => rfl
  | append_singleton l s ih =>
    rw [buildDaily_append, List.map_append, List.map_singleton, dedupFirst_concat]
    have hkeys : (buildDaily l).map Prod.fst = dedupFirst (l.map (fun t => t.dt.dayKey)) := by
      rw [ih, List.map_map]
      exact List.map_id' _
    rcases Decidable.em (s.dt.dayKey ∈ l.map (fun t => t.dt.dayKey)) with hmem | hmem
    · have hded : s.dt.dayKey ∈ dedupFirst (l.map (fun t => t.dt.dayKey)) :=
        (mem_dedupFirst _ _).mpr hmem
      rw [if_pos hded]
      unfold insertSample
      rw [if_pos (by rw [hkeys]; exact hded), ih, List.map_map]
      refine List.map_congr_left ?_
      intro k hk
      have hkmem : k ∈ l.map (fun t => t.dt.dayKey) := (mem_dedupFirst _ _).mp hk
      rcases Decidable.em (k = s.dt.dayKey) with rfl | hne
      · simp only [Function.comp]
        simp only [if_true]
        rw [groupData_append_same hmem]
      · simp only [Function.comp]
        rw [if_neg hne, groupData_append_of_ne hkmem (fun h => hne h.symm)]
    · have hded : s.dt.dayKey ∉ dedupFirst (l.map (fun t => t.dt.dayKey)) := by
        rw [mem_dedupFirst]
        exact hmem
      rw [if_neg hded]
      unfold insertSample
      rw [if_neg (by rw [hkeys]; exact hded), ih, List.map_append]
      congr 1
      · refine List.map_congr_left ?_
        intro k hk
        have hkmem : k ∈ l.map (fun t => t.dt.dayKey) := (mem_dedupFirst _ _).mp hk
        have hne : s.dt.dayKey ≠ k := fun h => hmem (h ▸ hkmem)
        rw [groupData_append_of_ne hkmem hne]
      · rw [List.map_singleton]
        unfold groupData
        rw [groupSamples_append, if_pos rfl, groupSamples_eq_nil hmem,
          List.nil_append, firstDate_append_new hmem]
        rfl

theorem aggregate_eq (l : List RawSample) :
    aggregate l = ((dedupFirst (l.map (fun s => s.dt.dayKey))).take 5).map
      (fun k => toForecast (groupData l k)) := by
  unfold aggregate
  rw [buildDaily_eq, List.map_map, List.map_map, List.map_take]
  rfl

/-! ### Python `min` / `max` over a list -/

theorem foldl_min_le_init (b : ℚ) (xs : List ℚ) : xs.foldl min b ≤ b := by
  induction xs generalizing b with
  | nil => exact le_refl b
  | cons y ys ih => exact le_trans (ih (min b y)) (min_le_left b y)

theorem foldl_min_le_mem {y : ℚ} {xs : List ℚ} (h : y ∈ xs) (b : ℚ) :
    xs.foldl min b ≤ y := by
  induction xs generalizing b with
  | nil => cases h
  | cons z zs ih =>
    simp only [List.foldl_cons]
    rcases List.mem_cons.mp h with rfl | hz
    · exact le_trans (foldl_min_le_init (min b y) zs) (min_le_right b y)
    · exact ih hz (min b z)

theorem foldl_min_mem (b : ℚ) (xs : List ℚ) : xs.foldl min b ∈ b :: xs := by
  induction xs generalizing b with
  | nil => exact List.mem_singleton_self b
  | cons y ys ih =>
    simp only [List.foldl_cons]
    rcases List.mem_cons.mp (ih (min b y)) with hh | hh
    · rw [hh]
      rcases min_choice b y with hm | hm
      · rw [hm]
        exact List.mem_cons_self b _
      · rw [hm]
        exact List.mem_cons_of_mem b (List.mem_cons_self y ys)
    · exact List.mem_cons_of_mem b (List.mem_cons_of_mem y hh)

theorem listMin_mem {xs : List ℚ} (h : xs ≠ []) : listMin xs ∈ xs := by
  cases xs with
  | nil => exact absurd rfl h
  | cons x ys => exact foldl_min_mem x ys

theorem listMin_le {xs : List ℚ} {y : ℚ} (h : y ∈ xs) : listMin xs ≤ y := by
  cases xs with
  | nil => cases h
  | cons x zs =>
    rcases List.mem_cons.mp h with rfl | hz
    · exact foldl_min_le_init y zs
    · exact foldl_min_le_mem hz x

theorem foldl_max_init_le (b : ℚ) (xs : List ℚ) : b ≤ xs.foldl max b := by
  induction xs generalizing b with
  | nil => exact le_refl b
  | cons y ys ih => exact le_trans (le_max_left b y) (ih (max b y))

theorem foldl_max_mem_le {y : ℚ} {xs : List ℚ} (h : y ∈ xs) (b : ℚ) :
    y ≤ xs.foldl max b := by
  induction xs generalizing b with
  | nil => cases h
  | cons z zs ih =>
    simp only [List.foldl_cons]
    rcases List.mem_cons.mp h with rfl | hz
    · exact le_trans (le_max_right b y) (foldl_max_init_le (max b y) zs)
    · exact ih hz (max b z)

theorem foldl_max_mem (b : ℚ) (xs : List ℚ) : xs.foldl max b ∈ b :: xs := by
  induction xs generalizing b with
  | nil => exact List.mem_singleton_self b
  | cons y ys ih =>
    simp only [List.foldl_cons]
    rcases List.mem_cons.mp (ih (max b y)) with hh | hh
    · rw [hh]
      rcases max_choice b y with hm | hm
      · rw [hm]
        exact List.mem_cons_self b _
      · rw [hm]
        exact List.mem_cons_of_mem b (List.mem_cons_self y ys)
    · exact List.mem_cons_of_mem b (List.mem_cons_of_mem y hh)

theorem listMax_mem {xs : List ℚ} (h : xs ≠ []) : listMax xs ∈ xs := by
  cases xs with
  | nil => exact absurd rfl h
  | cons x ys => exact foldl_max_mem x ys

theorem le_listMax {xs : List ℚ} {y : ℚ} (h : y ∈ xs) : y ≤ listMax xs := by
  cases xs with
  | nil => cases h
  | cons x zs =>
    rcases List.mem_cons.mp h with rfl | hz
    · exact foldl_max_init_le y zs
    · exact foldl_max_mem_le hz x

theorem listMin_le_listMax {xs : List ℚ} (h : xs ≠ []) : listMin xs ≤ listMax xs :=
  listMin_le (listMax_mem h)

/-! ### Python `max(set(descs), key=descs.count)` -/

theorem foldl_pick_count_ge_init (descs : List String) (b : String) (ys : List String) :
    descs.count b ≤ descs.count
      (ys.foldl (fun best y => if descs.count best < descs.count y then y else best) b) := by
  induction ys generalizing b with
  | nil => exact le_refl _
  | cons y ys ih =>
    simp only [List.foldl_cons]
    have step : descs.count b ≤
        descs.count (if descs.count b < descs.count y then y else b) := by
      rcases Decidable.em (descs.count b < descs.count y) with h | h
      · rw [if_pos h]
        exact Nat.le_of_lt h
      · rw [if_neg h]
    exact le_trans step (ih _)

theorem foldl_pick_count_ge_mem (descs : List String) (b : String) {ys : List String}
    {y : String} (hy : y ∈ ys) :
    descs.count y ≤ descs.count
      (ys.foldl (fun best y => if descs.count best < descs.count y then y else best) b) := by
  induction ys generalizing b with
  | nil => cases hy
  | cons z zs ih =>
    simp only [List.foldl_cons]
    rcases List.mem_cons.mp hy with rfl | hz
    · refine le_trans ?_ (foldl_pick_count_ge_init descs _ zs)
      rcases Decidable.em (descs.count b < descs.count y) with h | h
      · rw [if_pos h]
      · rw [if_neg h]
        exact Nat.le_of_not_lt h
    · exact ih _ hz

theorem foldl_pick_mem (descs : List String) (b : String) (ys : List String) :
    ys.foldl (fun best y => if descs.count best < descs.count y then y else best) b ∈
      b :: ys := by
  induction ys generalizing b with
  | nil => exact List.mem_singleton_self b
  | cons z zs ih =>
    simp only [List.foldl_cons]
    rcases List.mem_cons.mp (ih (if descs.count b < descs.count z then z else b)) with hh | hh
    · rw [hh]
      rcases Decidable.em (descs.count b < descs.count z) with h | h
      · rw [if_pos h]
        exact List.mem_cons_of_mem b (List.mem_cons_self z zs)
      · rw [if_neg h]
        exact List.mem_cons_self b _
    · exact List.mem_cons_of_mem b (List.mem_cons_of_mem z hh)

theorem mostCommon_spec (descs : List String) (h : descs ≠ []) :
    mostCommon descs ∈ descs ∧
      ∀ d ∈ descs, descs.count d ≤ descs.count (mostCommon descs) := by
  unfold mostCommon
  split
  · exfalso
    rename_i heq
    cases descs with
    | nil => exact h rfl
    | cons a as =>
      have ha : a ∈ dedupFirst (a :: as) :=
        (mem_dedupFirst _ _).mpr (List.mem_cons_self a as)
      rw [heq] at ha
      cases ha
  · rename_i x xs heq
    constructor
    · have hmem := foldl_pick_mem descs x xs
      rw [← heq] at hmem
      exact (mem_dedupFirst _ _).mp hmem
    · intro d hd
      have hd' : d ∈ dedupFirst descs := (mem_dedupFirst _ _).mpr hd
      rw [heq] at hd'
      rcases List.mem_cons.mp hd' with rfl | hdx
      · exact foldl_pick_count_ge_init descs d xs
      · exact foldl_pick_count_ge_mem descs x hdx

/-! ### Membership characterization of the aggregator's output -/

theorem groupSamples_ne_nil {l : List RawSample} {k : DayKey}
    (h : k ∈ l.map (fun s => s.dt.dayKey)) : groupSamples l k ≠ [] := by
  rcases List.mem_map.mp h with ⟨s, hs, rfl⟩
  intro hnil
  have hmem : s ∈ groupSamples l s.dt.dayKey :=
    List.mem_filter.mpr ⟨hs, by simp⟩
  rw [hnil] at hmem
  cases hmem

theorem mem_aggregate {l : List RawSample} {f : Forecast} (h : f ∈ aggregate l) :
    f.date.dayKey ∈ l.map (fun s => s.dt.dayKey) ∧
      f = toForecast (groupData l f.date.dayKey) := by
  rw [aggregate_eq] at h
  rcases List.mem_map.mp h with ⟨k, hk, rfl⟩
  have hk' : k ∈ dedupFirst (l.map (fun s => s.dt.dayKey)) :=
    (List.take_sublist 5 _).subset hk
  have hkl : k ∈ l.map (fun s => s.dt.dayKey) := (mem_dedupFirst _ _).mp hk'
  have hdk : (toForecast (groupData l k)).date.dayKey = k := firstDate_dayKey hkl
  rw [hdk]
  exact ⟨hkl, rfl⟩

theorem aggregate_keys (l : List RawSample) :
    (aggregate l).map (fun f => f.date.dayKey) =
      (dedupFirst (l.map (fun s => s.dt.dayKey))).take 5 := by
  rw [aggregate_eq, List.map_map]
  have hpt : ∀ k ∈ (dedupFirst (l.map (fun s => s.dt.dayKey))).take 5,
      ((fun f => f.date.dayKey) ∘ fun k => toForecast (groupData l k)) k =
        (fun k => k) k := by
    intro k hk
    exact firstDate_dayKey ((mem_dedupFirst _ _).mp ((List.take_sublist 5 _).subset hk))
  rw [List.map_congr_left hpt, List.map_id']

theorem dedupFirst_length_eq_card {α : Type _} [DecidableEq α] (l : List α) :
    (dedupFirst l).length = l.toFinset.card := by
  rw [← List.toFinset_card_of_nodup (nodup_dedupFirst l)]
  congr 1
  ext a
  simp only [List.mem_toFinset]
  exact mem_dedupFirst l a

/-- The day-key component of the chronological code: for valid timestamps,
`dayCode` is `code` divided by the number of minutes in a day. -/
def keyCode (k : DayKey) : Nat := (k.1 * 13 + k.2.1) * 32 + k.2.2

theorem code_div (dt : DateTime) (h : dt.Valid) :
    dt.code / 1440 = keyCode dt.dayKey := by
  obtain ⟨hm, hd, hh, hmin⟩ := h
  unfold DateTime.code keyCode DateTime.dayKey
  simp only
  omega

theorem keyCode_mono {a b : DateTime} (ha : a.Valid) (hb : b.Valid)
    (h : a.code ≤ b.code) : keyCode a.dayKey ≤ keyCode b.dayKey := by
  rw [← code_div a ha, ← code_div b hb]
  exact Nat.div_le_div_right h

/-- The concrete three-sample input of the spec's aggregation scenario. -/
def scenarioInput : List RawSample :=
  [⟨⟨2026, 1, 28, 6, 0⟩, 12, "cloudy"⟩,
   ⟨⟨2026, 1, 28, 9, 0⟩, 14, "cloudy"⟩,
   ⟨⟨2026, 1, 29, 6, 0⟩, 10, "rain"⟩]

/-- C1: for non-empty input the aggregator emits exactly
`min 5 (number of distinct calendar dates)` summaries, one per date in
first-encounter order (no padding), their dates are pairwise distinct, and
for chronologically sorted valid input the emitted dates ascend. -/
theorem aggregate_output_invariant (l : List RawSample) (h : l ≠ []) :
    (aggregate l).length = min 5 (l.map (fun s => s.dt.dayKey)).toFinset.card ∧
    (aggregate l).map (fun f => f.date.dayKey) =
      (dedupFirst (l.map (fun s => s.dt.dayKey))).take 5 ∧
    ((aggregate l).map (fun f => f.date.dayKey)).Nodup ∧
    ((∀ s ∈ l, s.dt.Valid) → l.Pairwise (fun a b => a.dt.code ≤ b.dt.code) →
      ((aggregate l).map (fun f => keyCode f.date.dayKey)).Pairwise (· ≤ ·)) := by
  refine ⟨?_, aggregate_keys l, ?_, ?_⟩
  · rw [aggregate_eq, List.length_map, List.length_take, dedupFirst_length_eq_card]
  · rw [aggregate_keys]
    exact (List.take_sublist 5 _).nodup (nodup_dedupFirst _)
  · intro hv hp
    have hmap : (aggregate l).map (fun f => keyCode f.date.dayKey) =
        ((aggregate l).map (fun f => f.date.dayKey)).map keyCode := by
      rw [List.map_map]
      rfl
    rw [hmap, aggregate_keys]
    have hsub : (((dedupFirst (l.map (fun s => s.dt.dayKey))).take 5).map keyCode).Sublist
        ((l.map (fun s => s.dt.dayKey)).map keyCode) :=
      ((List.take_sublist 5 _).trans (dedupFirst_sublist _)).map keyCode
    refine List.Pairwise.sublist hsub ?_
    rw [List.map_map, List.pairwise_map]
    refine hp.imp_of_mem ?_
    intro a b ha hb hab
    exact keyCode_mono (hv a ha) (hv b hb) hab

theorem aggregate_output_invariant_witness :
    scenarioInput ≠ [] ∧
    ((aggregate scenarioInput).length =
        min 5 (scenarioInput.map (fun s => s.dt.dayKey)).toFinset.card ∧
      (aggregate scenarioInput).map (fun f => f.date.dayKey) =
        (dedupFirst (scenarioInput.map (fun s => s.dt.dayKey))).take 5 ∧
      ((aggregate scenarioInput).map (fun f => f.date.dayKey)).Nodup ∧
      ((∀ s ∈ scenarioInput, s.dt.Valid) →
        scenarioInput.Pairwise (fun a b => a.dt.code ≤ b.dt.code) →
        ((aggregate scenarioInput).map (fun f => keyCode f.date.dayKey)).Pairwise (· ≤ ·))) :=
  ⟨by decide, aggregate_output_invariant scenarioInput (by decide)⟩

/-- C2: each summary's `temp_min` and `temp_max` are the exact minimum and
maximum of the temperatures sampled on that summary's calendar date; both
occur among those temperatures and `temp_min ≤ temp_max`. -/
theorem aggregate_temp_min_max (l : List RawSample) (f : Forecast)
    (h : f ∈ aggregate l) :
    f.temp_min = listMin ((groupSamples l f.date.dayKey).map (fun s => s.temp)) ∧
    f.temp_max = listMax ((groupSamples l f.date.dayKey).map (fun s => s.temp)) ∧
    (∀ t ∈ (groupSamples l f.date.dayKey).map (fun s => s.temp),
      f.temp_min ≤ t ∧ t ≤ f.temp_max) ∧
    f.temp_min ∈ (groupSamples l f.date.dayKey).map (fun s => s.temp) ∧
    f.temp_max ∈ (groupSamples l f.date.dayKey).map (fun s => s.temp) ∧
    f.temp_min ≤ f.temp_max := by
  obtain ⟨hmem, heq⟩ := mem_aggregate h
  have hne : (groupSamples l f.date.dayKey).map (fun s => s.temp) ≠ [] := by
    intro h0
    exact groupSamples_ne_nil hmem (List.map_eq_nil_iff.mp h0)
  have hmin : f.temp_min =
      listMin ((groupSamples l f.date.dayKey).map (fun s => s.temp)) :=
    congrArg Forecast.temp_min heq
  have hmax : f.temp_max =
      listMax ((groupSamples l f.date.dayKey).map (fun s => s.temp)) :=
    congrArg Forecast.temp_max heq
  refine ⟨hmin, hmax, ?_, ?_, ?_, ?_⟩
  · intro t ht
    rw [hmin, hmax]
    exact ⟨listMin_le ht, le_listMax ht⟩
  · rw [hmin]
    exact listMin_mem hne
  · rw [hmax]
    exact listMax_mem hne
  · rw [hmin, hmax]
    exact listMin_le_listMax hne

theorem aggregate_temp_min_max_witness :
    (Forecast.mk ⟨2026, 1, 28, 6, 0⟩ 12 14 "cloudy" ∈ aggregate scenarioInput) ∧
    ((Forecast.mk ⟨2026, 1, 28, 6, 0⟩ 12 14 "cloudy").temp_min =
        listMin ((groupSamples scenarioInput
          (Forecast.mk ⟨2026, 1, 28, 6, 0⟩ 12 14 "cloudy").date.dayKey).map
            (fun s => s.temp)) ∧
      (Forecast.mk ⟨2026, 1, 28, 6, 0⟩ 12 14 "cloudy").temp_max =
        listMax ((groupSamples scenarioInput
          (Forecast.mk ⟨2026, 1, 28, 6, 0⟩ 12 14 "cloudy").date.dayKey).map
            (fun s => s.temp)) ∧
      (∀ t ∈ (groupSamples scenarioInput
          (Forecast.mk ⟨2026, 1, 28, 6, 0⟩ 12 14 "cloudy").date.dayKey).map
            (fun s => s.temp),
        (Forecast.mk ⟨2026, 1, 28, 6, 0⟩ 12 14 "cloudy").temp_min ≤ t ∧
          t ≤ (Forecast.mk ⟨2026, 1, 28, 6, 0⟩ 12 14 "cloudy").temp_max) ∧
      (Forecast.mk ⟨2026, 1, 28, 6, 0⟩ 12 14 "cloudy").temp_min ∈
        (groupSamples scenarioInput
          (Forecast.mk ⟨2026, 1, 28, 6, 0⟩ 12 14 "cloudy").date.dayKey).map
            (fun s => s.temp) ∧
      (Forecast.mk ⟨2026, 1, 28, 6, 0⟩ 12 14 "cloudy").temp_max ∈
        (groupSamples scenarioInput
          (Forecast.mk ⟨2026, 1, 28, 6, 0⟩ 12 14 "cloudy").date.dayKey).map
            (fun s => s.temp) ∧
      (Forecast.mk ⟨2026, 1, 28, 6, 0⟩ 12 14 "cloudy").temp_min ≤
        (Forecast.mk ⟨2026, 1, 28, 6, 0⟩ 12 14 "cloudy").temp_max) :=
  ⟨by decide, aggregate_temp_min_max scenarioInput _ (by decide)⟩

/-- C3: each summary's description has an occurrence count within its day
group at least as large as any other description's count in that group (it
is some maximal-count value; no particular tie-break is asserted). -/
theorem aggregate_description_mode (l : List RawSample) (f : Forecast)
    (h : f ∈ aggregate l) :
    f.description ∈ (groupSamples l f.date.dayKey).map (fun s => s.description) ∧
    ∀ d ∈ (groupSamples l f.date.dayKey).map (fun s => s.description),
      ((groupSamples l f.date.dayKey).map (fun s => s.description)).count d ≤
        ((groupSamples l f.date.dayKey).map (fun s => s.description)).count
          f.description := by
  obtain ⟨hmem, heq⟩ := mem_aggregate h
  have hne : (groupSamples l f.date.dayKey).map (fun s => s.description) ≠ [] := by
    intro h0
    exact groupSamples_ne_nil hmem (List.map_eq_nil_iff.mp h0)
  have hdesc : f.description =
      mostCommon ((groupSamples l f.date.dayKey).map (fun s => s.description)) :=
    congrArg Forecast.description heq
  obtain ⟨h1, h2⟩ := mostCommon_spec _ hne
  rw [hdesc]
  exact ⟨h1, h2⟩

theorem aggregate_description_mode_witness :
    (Forecast.mk ⟨2026, 1, 29, 6, 0⟩ 10 10 "rain" ∈ aggregate scenarioInput) ∧
    ((Forecast.mk ⟨2026, 1, 29, 6, 0⟩ 10 10 "rain").description ∈
      (groupSamples scenarioInput
        (Forecast.mk ⟨2026, 1, 29, 6, 0⟩ 10 10 "rain").date.dayKey).map
          (fun s => s.description) ∧
    ∀ d ∈ (groupSamples scenarioInput
        (Forecast.mk ⟨2026, 1, 29, 6, 0⟩ 10 10 "rain").date.dayKey).map
          (fun s => s.description),
      ((groupSamples scenarioInput
        (Forecast.mk ⟨2026, 1, 29, 6, 0⟩ 10 10 "rain").date.dayKey).map
          (fun s => s.description)).count d ≤
        ((groupSamples scenarioInput
          (Forecast.mk ⟨2026, 1, 29, 6, 0⟩ 10 10 "rain").date.dayKey).map
            (fun s => s.description)).count
          (Forecast.mk ⟨2026, 1, 29, 6, 0⟩ 10 10 "rain").description) :=
  ⟨by decide, aggregate_description_mode scenarioInput _ (by decide)⟩

/-- C5: on the spec's three-sample scenario input the aggregator returns
exactly the two expected summaries; the summaries' calendar dates are
Jan 28 and Jan 29 of 2026 (their `date` fields carry the time of day of
each day's first sample, 06:00). -/
theorem aggregate_scenario :
    aggregate scenarioInput =
      [⟨⟨2026, 1, 28, 6, 0⟩, 12, 14, "cloudy"⟩,
       ⟨⟨2026, 1, 29, 6, 0⟩, 10, 10, "rain"⟩] ∧
    (aggregate scenarioInput).map (fun f => f.date.dayKey) =
      [(2026, 1, 28), (2026, 1, 29)] := by
  decide

/-- C6: a day group with exactly one sample yields a summary whose
`temp_min` and `temp_max` both equal that sample's temperature, whose
description is that sample's description, and whose date is that sample's
timestamp. -/
theorem aggregate_singleton_group (l : List RawSample) (f : Forecast) (s : RawSample)
    (h : f ∈ aggregate l) (hs : groupSamples l f.date.dayKey = [s]) :
    f.temp_min = s.temp ∧ f.temp_max = s.temp ∧
    f.description = s.description ∧ f.date = s.dt := by
  obtain ⟨hmem, heq⟩ := mem_aggregate h
  have hmin : f.temp_min =
      listMin ((groupSamples l f.date.dayKey).map (fun t => t.temp)) :=
    congrArg Forecast.temp_min heq
  have hmax : f.temp_max =
      listMax ((groupSamples l f.date.dayKey).map (fun t => t.temp)) :=
    congrArg Forecast.temp_max heq
  have hdesc : f.description =
      mostCommon ((groupSamples l f.date.dayKey).map (fun t => t.description)) :=
    congrArg Forecast.description heq
  have hdate : f.date = firstDate l f.date.dayKey := congrArg Forecast.date heq
  have hsmem : s ∈ l := by
    have hmem2 : s ∈ groupSamples l f.date.dayKey := by
      rw [hs]
      exact List.mem_singleton_self s
    exact (List.mem_filter.mp hmem2).1
  have hskey : s.dt.dayKey = f.date.dayKey := by
    have hmem2 : s ∈ groupSamples l f.date.dayKey := by
      rw [hs]
      exact List.mem_singleton_self s
    have := (List.mem_filter.mp hmem2).2
    simpa using this
  refine ⟨?_, ?_, ?_, ?_⟩
  · rw [hmin, hs]
    rfl
  · rw [hmax, hs]
    rfl
  · rw [hdesc, hs]
    rfl
  · rw [hdate]
    rcases hf : l.find? (fun t => t.dt.dayKey = f.date.dayKey) with _ | t
    · exact absurd ((mem_keys_iff_find? l _).mp hmem) (by rw [hf]; simp)
    · have htmem : t ∈ l := List.mem_of_find?_eq_some hf
      have htkey : t.dt.dayKey = f.date.dayKey := by
        have := List.find?_some hf
        simpa using this
      have htgroup : t ∈ groupSamples l f.date.dayKey :=
        List.mem_filter.mpr ⟨htmem, by simpa using htkey⟩
      rw [hs] at htgroup
      rcases List.mem_singleton.mp htgroup with rfl
      unfold firstDate
      rw [hf]

theorem aggregate_singleton_group_witness :
    (Forecast.mk ⟨2026, 1, 29, 6, 0⟩ 10 10 "rain" ∈ aggregate scenarioInput) ∧
    groupSamples scenarioInput
        (Forecast.mk ⟨2026, 1, 29, 6, 0⟩ 10 10 "rain").date.dayKey =
      [⟨⟨2026, 1, 29, 6, 0⟩, 10, "rain"⟩] ∧
    ((Forecast.mk ⟨2026, 1, 29, 6, 0⟩ 10 10 "rain").temp_min =
        (RawSample.mk ⟨2026, 1, 29, 6, 0⟩ 10 "rain").temp ∧
      (Forecast.mk ⟨2026, 1, 29, 6, 0⟩ 10 10 "rain").temp_max =
        (RawSample.mk ⟨2026, 1, 29, 6, 0⟩ 10 "rain").temp ∧
      (Forecast.mk ⟨2026, 1, 29, 6, 0⟩ 10 10 "rain").description =
        (RawSample.mk ⟨2026, 1, 29, 6, 0⟩ 10 "rain").description ∧
      (Forecast.mk ⟨2026, 1, 29, 6, 0⟩ 10 10 "rain").date =
        (RawSample.mk ⟨2026, 1, 29, 6, 0⟩ 10 "rain").dt) :=
  ⟨by decide, by decide,
    aggregate_singleton_group scenarioInput _ _ (by decide) (by decide)⟩

/-- C10: each summary's `date` field is the full timestamp (time of day
included) of the first input sample bearing that calendar date; it is not
normalized to midnight. -/
theorem aggregate_date_is_first_sample (l : List RawSample) (f : Forecast)
    (h : f ∈ aggregate l) :
    ∃ s, l.find? (fun t => t.dt.dayKey = f.date.dayKey) = some s ∧ f.date = s.dt := by
  obtain ⟨hmem, heq⟩ := mem_aggregate h
  have hdate : f.date = firstDate l f.date.dayKey := congrArg Forecast.date heq
  rw [mem_keys_iff_find?] at hmem
  rcases Option.isSome_iff_exists.mp hmem with ⟨s, hsf⟩
  refine ⟨s, hsf, ?_⟩
  rw [hdate]
  unfold firstDate
  rw [hsf]

theorem aggregate_date_is_first_sample_witness :
    (Forecast.mk ⟨2026, 1, 28, 6, 0⟩ 12 14 "cloudy" ∈ aggregate scenarioInput) ∧
    (∃ s, scenarioInput.find?
        (fun t => t.dt.dayKey =
          (Forecast.mk ⟨2026, 1, 28, 6, 0⟩ 12 14 "cloudy").date.dayKey) = some s ∧
      (Forecast.mk ⟨2026, 1, 28, 6, 0⟩ 12 14 "cloudy").date = s.dt) ∧
    (Forecast.mk ⟨2026, 1, 28, 6, 0⟩ 12 14 "cloudy").date.hour = 6 :=
  ⟨by decide, aggregate_date_is_first_sample scenarioInput _ (by decide), by decide⟩

/-! ### Idempotence on already-grouped data -/

theorem find?_groupSamples_of_nodup {l : List RawSample}
    (hnd : (l.map (fun t => t.dt.dayKey)).Nodup) {s : RawSample} (hs : s ∈ l) :
    l.find? (fun t => t.dt.dayKey = s.dt.dayKey) = some s ∧
    groupSamples l s.dt.dayKey = [s] := by
  induction l with
  | nil => cases hs
  | cons x xs ih =>
    rw [List.map_cons, List.nodup_cons] at hnd
    rcases List.mem_cons.mp hs with rfl | hmem
    · have hfilter : groupSamples xs s.dt.dayKey = [] := by
        apply groupSamples_eq_nil
        exact hnd.1
      constructor
      · simp [List.find?]
      · unfold groupSamples at hfilter ⊢
        rw [List.filter_cons, if_pos (by simp), hfilter]
    · have hne : x.dt.dayKey ≠ s.dt.dayKey := by
        intro hEq
        exact hnd.1 (hEq ▸ List.mem_map.mpr ⟨s, hmem, rfl⟩)
      obtain ⟨h1, h2⟩ := ih hnd.2 hmem
      constructor
      · rw [List.find?_cons]
        have hcond : decide (x.dt.dayKey = s.dt.dayKey) = false := by
          simpa using hne
        rw [hcond]
        exact h1
      · unfold groupSamples at h2 ⊢
        rw [List.filter_cons, if_neg (by simpa using hne)]
        exact h2

/-- Re-packing a summary as a raw sample, carrying the summary's (shared)
temperature; used to state idempotence on already-grouped data. -/
def toSample (f : Forecast) : RawSample := ⟨f.date, f.temp_min, f.description⟩

theorem aggregate_of_nodup (l : List RawSample)
    (hnd : (l.map (fun s => s.dt.dayKey)).Nodup) (hlen : l.length ≤ 5) :
    aggregate l = l.map (fun s => ⟨s.dt, s.temp, s.temp, s.description⟩) := by
  rw [aggregate_eq, dedupFirst_of_nodup _ hnd,
    List.take_of_length_le (by simpa using hlen), List.map_map]
  refine List.map_congr_left ?_
  intro s hs
  obtain ⟨h1, h2⟩ := find?_groupSamples_of_nodup hnd hs
  show toForecast (groupData l s.dt.dayKey) = _
  unfold groupData firstDate
  rw [h1, h2]
  rfl

/-- C4: on input that already has exactly one sample per calendar date (as
the aggregator's own output does), aggregation is a no-op: each summary
carries the sample's date, `temp_min = temp_max =` its temperature and its
description, and re-aggregating the repacked output returns the same
summaries. -/
theorem aggregate_idempotent (l : List RawSample)
    (hnd : (l.map (fun s => s.dt.dayKey)).Nodup) (hlen : l.length ≤ 5) :
    aggregate l = l.map (fun s => ⟨s.dt, s.temp, s.temp, s.description⟩) ∧
    aggregate ((aggregate l).map toSample) = aggregate l := by
  have h1 := aggregate_of_nodup l hnd hlen
  refine ⟨h1, ?_⟩
  have hmap : (aggregate l).map toSample = l := by
    rw [h1, List.map_map]
    refine (List.map_congr_left ?_).trans (List.map_id' l)
    intro s hs
    rfl
  rw [hmap]

/-! ### Report formatting (`format_weather`, `format_forecast`) -/

/-- The `Weather` dataclass of `src/weather.py` (spec: `CurrentConditions`). -/
structure Weather where
  city : String
  country : String
  temp : ℚ
  feels_like : ℚ
  humidity : Nat
  description : String
  wind_speed : ℚ
  timestamp : DateTime
deriving DecidableEq, Repr

/-- Python `str.capitalize()`: first character uppercased, the rest
lowercased (ASCII case mapping suffices for the reports here). -/
def capitalize (s : String) : String :=
  match s.data with
  | [] => ""
  | c :: cs => String.mk (c.toUpper :: cs.map Char.toLower)

/-- Fixed-point rendering with one decimal digit, modelling `f"{x:.1f}"`:
scale by ten and round to an integer (floats round ties to even; ties and
sub-0.05 negatives never arise in the statements proved here). -/
def fmt1 (q : ℚ) : String :=
  let n : Int := (q * 10 + 1 / 2).num.fdiv ((q * 10 + 1 / 2).den : Int)
  (if n < 0 then "-" else "") ++
    toString (n.natAbs / 10) ++ "." ++ toString (n.natAbs % 10)

/-- `f"{x:5.1f}"`: the one-decimal rendering right-aligned to width 5. -/
def fmt5_1 (q : ℚ) : String :=
  String.mk (List.replicate (5 - (fmt1 q).length) ' ') ++ fmt1 q

def pad2 (n : Nat) : String := if n < 10 then "0" ++ toString n else toString n

def pad4 (n : Nat) : String :=
  if n < 10 then "000" ++ toString n
  else if n < 100 then "00" ++ toString n
  else if n < 1000 then "0" ++ toString n
  else toString n

/-- `strftime("%Y-%m-%d %H:%M")`. -/
def fmtTimestamp (dt : DateTime) : String :=
  pad4 dt.year ++ "-" ++ pad2 dt.month ++ "-" ++ pad2 dt.day ++ " " ++
    pad2 dt.hour ++ ":" ++ pad2 dt.minute

/-- `"─" * 40`. -/
def rule40 : String := String.mk (List.replicate 40 '─')

/-- `"─" * 50`. -/
def rule50 : String := String.mk (List.replicate 50 '─')

/-- Zeller index of the weekday of a Gregorian date (0 = Saturday). -/
def zellerIndex (dt : DateTime) : Nat :=
  let y := if dt.month < 3 then dt.year - 1 else dt.year
  let m := if dt.month < 3 then dt.month + 12 else dt.month
  (dt.day + 13 * (m + 1) / 5 + y % 100 + y % 100 / 4 + y / 100 / 4 + 5 * (y / 100)) % 7

/-- `strftime("%a")` (C locale). -/
def weekdayName (dt : DateTime) : String :=
  ["Sat", "Sun", "Mon", "Tue", "Wed", "Thu", "Fri"].getD (zellerIndex dt) ""

/-- `strftime("%b")` (C locale). -/
def monthName (m : Nat) : String :=
  ["Jan", "Feb", "Mar", "Apr", "May", "Jun",
   "Jul", "Aug", "Sep", "Oct", "Nov", "Dec"].getD (m - 1) ""

/-- `fc.date.strftime("%a %b %d")`. -/
def fmtDay (dt : DateTime) : String :=
  weekdayName dt ++ " " ++ monthName dt.month ++ " " ++ pad2 dt.day

/-- The current-conditions report with the two unit suffixes as parameters:
the spec-side shape against which `format_weather` is compared (the
source's line list joined by newlines, written as one concatenation with
newline separators). -/
def weatherDisplay (w : Weather) (temp_unit speed_unit : String) : String :=
  "Weather for " ++ w.city ++ ", " ++ w.country ++ "\n" ++
  rule40 ++ "\n" ++
  "Temperature:  " ++ fmt1 w.temp ++ temp_unit ++ " (feels like " ++
  fmt1 w.feels_like ++ temp_unit ++ ")" ++ "\n" ++
  "Conditions:   " ++ capitalize w.description ++ "\n" ++
  "Humidity:     " ++ toString w.humidity ++ "%" ++ "\n" ++
  "Wind:         " ++ fmt1 w.wind_speed ++ " " ++ speed_unit ++ "\n" ++
  rule40 ++ "\n" ++
  "Updated: " ++ fmtTimestamp w.timestamp

/-- `format_weather` (lines 131-146): the unit-system selector fixes the two
displayed suffixes (anything other than "metric" selects the imperial
ones) and nothing else. -/
def format_weather (weather : Weather) (units : String) : String :=
  weatherDisplay weather (if units = "metric" then "°C" else "°F")
    (if units = "metric" then "m/s" else "mph")

/-- One forecast line of `format_forecast` (lines 155-159). -/
def forecastLine (fc : Forecast) (temp_unit : String) : String :=
  fmtDay fc.date ++ "  " ++ fmt5_1 fc.temp_min ++ temp_unit ++ " - " ++
    fmt5_1 fc.temp_max ++ temp_unit ++ "  " ++ capitalize fc.description

/-- The forecast report with the temperature suffix as a parameter. -/
def forecastDisplay (forecasts : List Forecast) (city : String)
    (temp_unit : String) : String :=
  String.intercalate "\n"
    (("5-Day Forecast for " ++ city) :: rule50 ::
      forecasts.map (fun fc => forecastLine fc temp_unit))

/-- `format_forecast` (lines 149-161). -/
def format_forecast (forecasts : List Forecast) (city : String)
    (units : String) : String :=
  forecastDisplay forecasts city (if units = "metric" then "°C" else "°F")

/-! ### HTTP status handling of the fetch layer -/

/-- What one call of `fetch_current_weather`/`fetch_forecast` does after the
HTTP exchange, as observable process behavior. -/
inductive FetchResult (α : Type) where
  /-- `sys.exit(1)` with `msg` on stderr: termination, no report. -/
  | exited (msg : String)
  /-- `response.raise_for_status()` raised: uncaught, termination, no report. -/
  | raised (status : Nat)
  /-- `.json()` or a field access raised on a malformed body: no report. -/
  | parseError
  /-- the parsed record is returned and a report is printed. -/
  | ok (a : α)
deriving DecidableEq, Repr

/-- `true` when the call never reaches the report. -/
def FetchResult.isFailure {α : Type} : FetchResult α → Bool
  | .ok _ => false
  | _ => true

/-- The response handling shared by `fetch_current_weather` (lines 60-67)
and `fetch_forecast` (lines 89-96): explicit 404 and 401 exits, then
`response.raise_for_status()` — which raises exactly for statuses in
400..599 — then body decoding (`body` is `some` when the JSON body parses
and has the expected fields, `none` otherwise). -/
def fetchDispatch {α : Type} (city : String) (status : Nat)
    (body : Option α) : FetchResult α :=
  if status = 404 then
    FetchResult.exited ("Error: City \x27" ++ city ++ "\x27 not found")
  else if status = 401 then FetchResult.exited "Error: Invalid API key"
  else if 400 ≤ status ∧ status < 600 then FetchResult.raised status
  else
    match body with
    | some a => FetchResult.ok a
    | none => FetchResult.parseError

theorem weatherDisplay_header_decomp (w : Weather) (tu su : String) :
    weatherDisplay w tu su =
      "Weather for " ++ (w.city ++ ", " ++ w.country) ++
        ("\n" ++ rule40 ++ "\n" ++ "Temperature:  " ++ fmt1 w.temp ++ tu ++
          " (feels like " ++ fmt1 w.feels_like ++ tu ++ ")" ++ "\n" ++
          "Conditions:   " ++ capitalize w.description ++ "\n" ++
          "Humidity:     " ++ toString w.humidity ++ "%" ++ "\n" ++
          "Wind:         " ++ fmt1 w.wind_speed ++ " " ++ su ++ "\n" ++
          rule40 ++ "\n" ++ "Updated: " ++ fmtTimestamp w.timestamp) := by
  unfold weatherDisplay
  simp only [String.append_assoc]

theorem weatherDisplay_humidity_decomp (w : Weather) (tu su : String) :
    weatherDisplay w tu su =
      ("Weather for " ++ w.city ++ ", " ++ w.country ++ "\n" ++
          rule40 ++ "\n" ++ "Temperature:  " ++ fmt1 w.temp ++ tu ++
          " (feels like " ++ fmt1 w.feels_like ++ tu ++ ")" ++ "\n" ++
          "Conditions:   " ++ capitalize w.description ++ "\n" ++
          "Humidity:     ") ++
        (toString w.humidity ++ "%") ++
        ("\n" ++ "Wind:         " ++ fmt1 w.wind_speed ++ " " ++ su ++ "\n" ++
          rule40 ++ "\n" ++ "Updated: " ++ fmtTimestamp w.timestamp) := by
  unfold weatherDisplay
  simp only [String.append_assoc]

/-- C7: `format_weather` in `metric` mode is the report with suffixes `°C`
and `m/s`, in `imperial` mode the same report with suffixes `°F` and `mph`
(every other displayed value is rendered from the same fields by the same
functions, so the selector changes nothing but the suffixes), and for every
selector the report contains `<city>, <country>` and the humidity rendered
as an integer followed by `%`. -/
theorem format_weather_units_contract (w : Weather) :
    format_weather w "metric" = weatherDisplay w "°C" "m/s" ∧
    format_weather w "imperial" = weatherDisplay w "°F" "mph" ∧
    (∀ units : String, ∃ x y : String,
      format_weather w units = x ++ (w.city ++ ", " ++ w.country) ++ y) ∧
    (∀ units : String, ∃ x y : String,
      format_weather w units = x ++ (toString w.humidity ++ "%") ++ y) := by
  refine ⟨rfl, rfl, ?_, ?_⟩
  · intro units
    exact ⟨"Weather for ", _, weatherDisplay_header_decomp w _ _⟩
  · intro units
    exact ⟨_, _, weatherDisplay_humidity_decomp w _ _⟩

/-- C9: any selector other than exactly "metric" — "imperial", the empty
string, anything — selects the imperial suffixes in both formatters; no
selector value is rejected at the formatting layer. -/
theorem format_nonmetric_imperial (w : Weather) (fs : List Forecast)
    (city units : String) (h : units ≠ "metric") :
    format_weather w units = weatherDisplay w "°F" "mph" ∧
    format_forecast fs city units = forecastDisplay fs city "°F" := by
  constructor
  · unfold format_weather
    rw [if_neg h, if_neg h]
  · unfold format_forecast
    rw [if_neg h]

/-- The formatter scenario record of the spec. -/
def londonWeather : Weather :=
  ⟨"London", "GB", 152 / 10, 148 / 10, 72, "partly cloudy", 35 / 10,
    ⟨2026, 1, 28, 14, 30⟩⟩

theorem format_nonmetric_imperial_witness :
    ("" : String) ≠ "metric" ∧
    (format_weather londonWeather "" = weatherDisplay londonWeather "°F" "mph" ∧
      format_forecast [] "London" "" = forecastDisplay [] "London" "°F") :=
  ⟨by decide, format_nonmetric_imperial londonWeather [] "London" "" (by decide)⟩

/-- C8 counterexample: a response with the non-2xx status 304 and a body
that parses does NOT result in failure — the code only exits on 404/401 and
`raise_for_status` only raises for 400..599, so a 304 reaches the report
path. -/
theorem fetchDispatch_counterexample :
    ¬(304 / 100 = 2) ∧
    fetchDispatch "London" 304 (some 42) = FetchResult.ok 42 ∧
    (fetchDispatch "London" 304 (some (42 : Nat))).isFailure = false := by
  decide

/-- C8 (amended): 404 terminates with the city-not-found message and 401
with the invalid-API-key message (non-zero exit, message on stderr, before
any report); every other status in 400..599 raises instead of reporting;
in all three cases no report is ever produced, whatever the body holds. -/
theorem fetchDispatch_error_handling {α : Type} (city : String) (status : Nat)
    (body : Option α) :
    (status = 404 → fetchDispatch city status body =
      FetchResult.exited ("Error: City \x27" ++ city ++ "\x27 not found")) ∧
    (status = 401 → fetchDispatch city status body =
      FetchResult.exited "Error: Invalid API key") ∧
    (status ≠ 404 → status ≠ 401 → 400 ≤ status → status < 600 →
      fetchDispatch city status body = FetchResult.raised status) ∧
    (status = 404 ∨ status = 401 ∨ (400 ≤ status ∧ status < 600) →
      ∀ a : α, fetchDispatch city status body ≠ FetchResult.ok a) := by
  refine ⟨?_, ?_, ?_, ?_⟩
  · rintro rfl
    rfl
  · rintro rfl
    rfl
  · intro hn4 hn1 hge hlt
    unfold fetchDispatch
    rw [if_neg hn4, if_neg hn1, if_pos (show 400 ≤ status ∧ status < 600 from ⟨hge, hlt⟩)]
  · rintro (rfl | rfl | ⟨hge, hlt⟩) a heq
    · simp [fetchDispatch] at heq
    · simp [fetchDispatch] at heq
    · unfold fetchDispatch at heq
      rcases Decidable.em (status = 404) with h4 | h4
      · rw [if_pos h4] at heq
        exact FetchResult.noConfusion heq
      · rcases Decidable.em (status = 401) with h1 | h1
        · rw [if_neg h4, if_pos h1] at heq
          exact FetchResult.noConfusion heq
        · rw [if_neg h4, if_neg h1,
            if_pos (show 400 ≤ status ∧ status < 600 from ⟨hge, hlt⟩)] at heq
          exact FetchResult.noConfusion heq

/-- A two-day input with exactly one sample per calendar date. -/
def groupedInput : List RawSample :=
  [⟨⟨2026, 1, 28, 6, 0⟩, 12, "cloudy"⟩, ⟨⟨2026, 1, 29, 6, 0⟩, 10, "rain"⟩]

theorem aggregate_idempotent_witness :
    (groupedInput.map (fun s => s.dt.dayKey)).Nodup ∧ groupedInput.length ≤ 5 ∧
    (aggregate groupedInput =
        groupedInput.map (fun s => ⟨s.dt, s.temp, s.temp, s.description⟩) ∧
      aggregate ((aggregate groupedInput).map toSample) = aggregate groupedInput) :=
  ⟨by decide, by decide, aggregate_idempotent groupedInput (by decide) (by decide)⟩
